import Mathlib

/-!
Verification of the newsletter-archive data-acquisition layer
(`app/utils/github.ts`) against its natural-language specification.

The TypeScript source is shallowly embedded: JavaScript `Map`s become
association lists with insertion-order semantics, regular-expression
matches become explicit character-list parsers, `Date` construction
becomes an exact model of ECMAScript `MakeDay`/`MakeDate` calendar
normalization, and the module-level cache variable becomes explicit
state passing.
-/

set_option maxRecDepth 2000

namespace NewsletterArchive

/-! ## Generic string and list helpers -/

/-- Digit-string value: the value `parseInt(s, 10)` computes on an
all-digit string (left fold, base 10). -/
def digitsToNat (cs : List Char) : Nat :=
  cs.foldl (fun a c => 10 * a + (c.toNat - '0'.toNat)) 0

/-- Split a character list at every occurrence of a separator; the
result is always nonempty and keeps empty segments, matching
JavaScript `String.prototype.split` with a single-character
separator. -/
def splitChars (sep : Char) : List Char → List (List Char)
  | [] => [[]]
  | c :: cs =>
    if c = sep then [] :: splitChars sep cs
    else
      match splitChars sep cs with
      | [] => [[c]]
      | seg :: rest => (c :: seg) :: rest

/-- JavaScript `s.split("/")`. -/
def splitOnSlash (s : String) : List String :=
  (splitChars '/' s.data).map fun cs => ⟨cs⟩

/-- JavaScript `s.endsWith(suffix)`, on the underlying characters. -/
def strEndsWith (s suffix : String) : Bool :=
  suffix.data.isSuffixOf s.data

/-- JavaScript `s.startsWith(pre)`, on the underlying characters. -/
def strStartsWith (s pre : String) : Bool :=
  pre.data.isPrefixOf s.data

/-- Digit character of a value below ten. -/
def natDigitChar (n : Nat) : Char := Char.ofNat (48 + n)

/-- Decimal digits of a number, most significant first (with fuel, so
that every step is structural). -/
def natToDigits : Nat → Nat → List Char
  | 0, _ => []
  | fuel + 1, n =>
    if n < 10 then [natDigitChar n]
    else natToDigits fuel (n / 10) ++ [natDigitChar (n % 10)]

/-- Decimal rendering of a natural number, as JavaScript template
interpolation renders a nonnegative integer. -/
def natToString (n : Nat) : String := ⟨natToDigits (n + 1) n⟩

/-- JavaScript `hay.includes(needle)` on character lists. -/
def containsSub (needle : List Char) : List Char → Bool
  | [] => needle.isEmpty
  | c :: rest => needle.isPrefixOf (c :: rest) || containsSub needle rest

/-- Drop an expected literal prefix, or fail. -/
def dropLit : List Char → List Char → Option (List Char)
  | [], cs => some cs
  | _ :: _, [] => none
  | l :: ls, c :: cs => if c = l then dropLit ls cs else none

/-- Read exactly `k` decimal digits (JavaScript `\d` is `[0-9]`),
returning the digits and the remaining characters. -/
def takeDigits : Nat → List Char → Option (List Char × List Char)
  | 0, cs => some ([], cs)
  | _ + 1, [] => none
  | k + 1, c :: cs =>
    if c.isDigit then
      match takeDigits k cs with
      | some (ds, rest) => some (c :: ds, rest)
      | none => none
    else none

/-- Read one or more decimal digits greedily (JavaScript `\d+`). -/
def takeDigits1 (cs : List Char) : Option (List Char × List Char) :=
  let ds := cs.takeWhile Char.isDigit
  if ds.isEmpty then none else some (ds, cs.dropWhile Char.isDigit)

/-- Update-or-append write of a JavaScript `Map.set`: if the key is
present its value is replaced in place (insertion order kept),
otherwise the binding is appended. -/
def mapSet {β : Type} : List (String × β) → String → β → List (String × β)
  | [], k, v => [(k, v)]
  | (k', v') :: rest, k, v =>
    if k' = k then (k', v) :: rest else (k', v') :: mapSet rest k v

/-! ## ECMAScript `Date` calendar normalization

`new Date(year, monthIndex, day)` accepts out-of-range month and day
arguments and rolls them over (ECMAScript `MakeDay`): the month is
normalized into the year, then `day - 1` days are added to the first of
that month.  A year argument between 0 and 99 means `1900 + year`.
The civil-calendar conversions below are the standard exact algorithms
on the proleptic Gregorian calendar. -/

/-- Normalized calendar date (month 1–12, day within the month). -/
structure JsDate where
  year : Int
  month : Int
  day : Int
deriving DecidableEq

/-- Days since 1970-01-01 of a civil date (exact also for out-of-range
`d`, in which `daysFromCivil` is affine). -/
def daysFromCivil (y m d : Int) : Int :=
  let y := y - (if m ≤ 2 then 1 else 0)
  let era := Int.fdiv y 400
  let yoe := y - era * 400
  let mp := m + (if m > 2 then (-3 : Int) else 9)
  let doy := (153 * mp + 2) / 5 + d - 1
  let doe := yoe * 365 + yoe / 4 - yoe / 100 + doy
  era * 146097 + doe - 719468

/-- Civil date of a count of days since 1970-01-01. -/
def civilFromDays (z0 : Int) : JsDate :=
  let z := z0 + 719468
  let era := Int.fdiv z 146097
  let doe := z - era * 146097
  let yoe := (doe - doe / 1460 + doe / 36524 - doe / 146096) / 365
  let y := yoe + era * 400
  let doy := doe - (365 * yoe + yoe / 4 - yoe / 100)
  let mp := (5 * doy + 2) / 153
  let d := doy - (153 * mp + 2) / 5 + 1
  let m := mp + (if mp < 10 then (3 : Int) else -9)
  ⟨y + (if m ≤ 2 then 1 else 0), m, d⟩

/-- Model of `new Date(year, monthIndex, day)`: 1900-era two-digit year
adjustment, month normalization, then day rollover — no calendar
validation is performed. -/
def jsMakeDate (yearArg monthIndex day : Int) : JsDate :=
  let y := if 0 ≤ yearArg ∧ yearArg ≤ 99 then yearArg + 1900 else yearArg
  let ym := y * 12 + monthIndex
  let ny := Int.fdiv ym 12
  let nm := ym - 12 * ny
  civilFromDays (daysFromCivil ny (nm + 1) 1 + (day - 1))

/-! ## Data model (`app/utils/github.ts`) -/

deriving instance DecidableEq for Except

/-- Record `NewsletterFile`: one file discovered in the archive. -/
structure NewsletterFile where
  name : String
  path : String
  size : Nat
deriving DecidableEq

/-- Record `NewsletterMetadata`: one derived newsletter record. -/
structure NewsletterMetadata where
  number : Nat
  date : JsDate
  path : String
  filename : String
deriving DecidableEq

/-- Bundle `RepositoryContents`: the assembled bundle.  The source closes over
the `contents` map in `getFileContent`; the embedding carries the map
as a field. -/
structure RepositoryContents where
  files : List (String × NewsletterFile)
  newsletters : List NewsletterMetadata
  contents : List (String × List Nat)
deriving DecidableEq

/-- Accessor `getFileContent(path)` of a bundle: `contents.get(path) ?? null`. -/
def RepositoryContents.getFileContent (c : RepositoryContents) (path : String) :
    Option (List Nat) :=
  c.contents.lookup path

/-- Payload of `NewsletterNotFoundError`. -/
structure NewsletterNotFoundError where
  number : Nat
deriving DecidableEq

/-- Payload of `ImageNotFoundError`. -/
structure ImageNotFoundError where
  newsletterNumber : Nat
  filename : String
deriving DecidableEq

/-! ## Tar extraction (`parseTarball`) -/

/-- One tar entry as surfaced by the tar parser: header name, header
type, declared size, and full byte payload. -/
structure TarEntry where
  name : String
  type : String
  size : Nat
  bytes : List Nat
deriving DecidableEq

/-- ECMAScript line terminators, which `.` never matches and which bar
`$` (without the `m` flag) from matching anywhere but the very end. -/
def isLineTerm (c : Char) : Bool :=
  c = '\n' || c = '\r' || c = '\u2028' || c = '\u2029'

/-- The literal `/newsletters/` the extraction regex looks for. -/
def markerChars : List Char := '/' :: "newsletters/".data

/-- The `[^/]+` requirement on the character just before the marker:
there is a preceding character and it is not a slash. -/
def prevOk : Option Char → Bool
  | some p => p != '/'
  | none => false

/-- Scanner realizing `name.match(/[^\/]+\/newsletters\/(.+)$/)`: the
leftmost occurrence of `/newsletters/` that is immediately preceded by
a non-slash character and followed by a nonempty, line-terminator-free
remainder captures that remainder. -/
def tarScan : Option Char → List Char → Option (List Char)
  | _, [] => none
  | prev, c :: cs =>
    if prevOk prev && markerChars.isPrefixOf (c :: cs) then
      let rest := (c :: cs).drop markerChars.length
      if !rest.isEmpty && rest.all (fun ch => !isLineTerm ch) then some rest
      else tarScan (some c) cs
    else tarScan (some c) cs

/-- Capture group of the extraction regex applied to an entry name. -/
def tarCapture (s : String) : Option String :=
  (tarScan none s.data).map fun cs => ⟨cs⟩

/-- Per-entry step of `parseTarball`: skip names without the
`newsletters/` substring, skip directory-typed entries and names ending
in `/`, skip names the regex rejects; otherwise derive `relativePath`
and `filename` and record the file index entry and the byte payload. -/
def tarStep (acc : List (String × NewsletterFile) × List (String × List Nat))
    (e : TarEntry) :
    List (String × NewsletterFile) × List (String × List Nat) :=
  if !containsSub "newsletters/".data e.name.data then acc
  else if e.type == "directory" || strEndsWith e.name "/" then acc
  else
    match tarCapture e.name with
    | none => acc
    | some relativePath =>
      let parts := splitOnSlash relativePath
      let filename := parts.getLastD ""
      (mapSet acc.1 relativePath ⟨filename, relativePath, e.size⟩,
       mapSet acc.2 relativePath e.bytes)

/-- Function `parseTarball`: fold the per-entry step over the archive's entries
in order, building the file index and the contents map. -/
def parseTarball (entries : List TarEntry) :
    List (String × NewsletterFile) × List (String × List Nat) :=
  entries.foldl tarStep ([], [])

/-! ## Metadata derivation (`extractNewsletterMetadata`) -/

/-- Match of `^newsletter-(\d+)$`: the literal prefix followed by one
or more digits, to the end; yields `parseInt` of the digit run. -/
def parseNewsletterDirName (s : String) : Option Nat :=
  match dropLit "newsletter-".data s.data with
  | none => none
  | some rest =>
    if !rest.isEmpty && rest.all Char.isDigit then some (digitsToNat rest)
    else none

/-- Match of `^(\d{4})-(\d{2})-(\d{2})-remix-newsletter-\d+\.md$`:
year, month and day digit fields, the fixed token, a digit run, and the
`.md` extension; purely digit-wise, with no calendar validation. -/
def parseNewsletterFilename (s : String) : Option (Nat × Nat × Nat) := do
  let (y, r1) ← takeDigits 4 s.data
  let r2 ← dropLit "-".data r1
  let (m, r3) ← takeDigits 2 r2
  let r4 ← dropLit "-".data r3
  let (d, r5) ← takeDigits 2 r4
  let r6 ← dropLit "-remix-newsletter-".data r5
  let (_, r7) ← takeDigits1 r6
  let r8 ← dropLit ".md".data r7
  if r8.isEmpty then some (digitsToNat y, digitsToNat m, digitsToNat d)
  else none

/-- Append a file to the group of a directory name, creating the group
at the end when absent (`newsletterDirs.has`/`set`/`get().push`). -/
def addToGroup : List (String × List NewsletterFile) → String →
    NewsletterFile → List (String × List NewsletterFile)
  | [], k, f => [(k, [f])]
  | (k', fs) :: rest, k, f =>
    if k' = k then (k', fs ++ [f]) :: rest
    else (k', fs) :: addToGroup rest k f

/-- Grouping pass of `extractNewsletterMetadata`: for each indexed
file, split its key on `/`, skip keys with fewer than two segments,
take the first segment as the directory name, keep only names starting
with `newsletter-`, and collect files per directory in insertion
order. -/
def groupDirs (files : List (String × NewsletterFile)) :
    List (String × List NewsletterFile) :=
  files.foldl
    (fun gs kv =>
      match splitOnSlash kv.1 with
      | p0 :: _ :: _ =>
        if strStartsWith p0 "newsletter-" then addToGroup gs p0 kv.2 else gs
      | _ => gs)
    []

/-- Per-directory body of the second loop of
`extractNewsletterMetadata`: find the first file whose name ends in
`.md`, match the directory name and the chosen file's name against
their patterns, and build the record; any failed step drops the
directory silently. -/
def processDir (g : String × List NewsletterFile) :
    Option NewsletterMetadata :=
  match g.2.find? (fun f => strEndsWith f.name ".md") with
  | none => none
  | some markdownFile =>
    match parseNewsletterDirName g.1 with
    | none => none
    | some number =>
      match parseNewsletterFilename markdownFile.name with
      | none => none
      | some (y, m, d) =>
        some ⟨number,
              jsMakeDate (Int.ofNat y) (Int.ofNat m - 1) (Int.ofNat d),
              markdownFile.path, markdownFile.name⟩

/-- Stable descending insertion by `number`: a record moves ahead of
strictly smaller numbers only, matching the stable ECMAScript
`Array.prototype.sort` under the comparator `b.number - a.number`. -/
def insertDesc (x : NewsletterMetadata) :
    List NewsletterMetadata → List NewsletterMetadata
  | [] => [x]
  | y :: ys => if y.number < x.number then x :: y :: ys
               else y :: insertDesc x ys

/-- Stable sort by `number` descending. -/
def sortByNumberDesc (l : List NewsletterMetadata) :
    List NewsletterMetadata :=
  l.foldl (fun acc x => insertDesc x acc) []

/-- Function `extractNewsletterMetadata`: group the file index by first path
segment, derive one optional record per group, and sort the survivors
by `number` descending. -/
def extractNewsletterMetadata (files : List (String × NewsletterFile)) :
    List NewsletterMetadata :=
  sortByNumberDesc ((groupDirs files).filterMap processDir)

/-- Function `buildRepositoryContents` (network fetch abstracted to the entry
list it yields): extract the archive and derive the metadata. -/
def buildRepositoryContents (entries : List TarEntry) : RepositoryContents :=
  let fc := parseTarball entries
  ⟨fc.1, extractNewsletterMetadata fc.1, fc.2⟩

/-! ## UTF-8 decoding (`new TextDecoder().decode`)

The default `TextDecoder` decodes UTF-8 with U+FFFD replacement and
never throws; on a malformed sequence it emits one replacement
character for the maximal ill-formed prefix and resumes at the
offending byte (WHATWG decoder). -/

/-- Replacement character U+FFFD. -/
def replChar : Char := Char.ofNat 0xFFFD

/-- Lower bound of the first continuation byte of a 3-byte lead. -/
def cont3Lo (b : Nat) : Nat := if b = 0xE0 then 0xA0 else 0x80

/-- Upper bound of the first continuation byte of a 3-byte lead. -/
def cont3Hi (b : Nat) : Nat := if b = 0xED then 0x9F else 0xBF

/-- Lower bound of the first continuation byte of a 4-byte lead. -/
def cont4Lo (b : Nat) : Nat := if b = 0xF0 then 0x90 else 0x80

/-- Upper bound of the first continuation byte of a 4-byte lead. -/
def cont4Hi (b : Nat) : Nat := if b = 0xF4 then 0x8F else 0xBF

/-- Continuation-byte test `0x80 ≤ b ≤ 0xBF`. -/
def isCont (b : Nat) : Bool := 0x80 ≤ b && b ≤ 0xBF

/-- One decoder step on a lead byte: the scalar produced (or U+FFFD)
and how many bytes beyond the lead are consumed.  On a malformed or
truncated sequence a single replacement character stands for the
collected prefix and decoding resumes at the offending byte. -/
def utf8Step (b : Nat) (rest : List Nat) : Char × Nat :=
  if b ≤ 0x7F then (Char.ofNat b, 0)
  else if 0xC2 ≤ b && b ≤ 0xDF then
    match rest with
    | c1 :: _ =>
      if isCont c1 then (Char.ofNat ((b - 0xC0) * 64 + (c1 - 0x80)), 1)
      else (replChar, 0)
    | [] => (replChar, 0)
  else if 0xE0 ≤ b && b ≤ 0xEF then
    match rest with
    | c1 :: rest2 =>
      if cont3Lo b ≤ c1 && c1 ≤ cont3Hi b then
        match rest2 with
        | c2 :: _ =>
          if isCont c2 then
            (Char.ofNat ((b - 0xE0) * 4096 + (c1 - 0x80) * 64 + (c2 - 0x80)), 2)
          else (replChar, 1)
        | [] => (replChar, 1)
      else (replChar, 0)
    | [] => (replChar, 0)
  else if 0xF0 ≤ b && b ≤ 0xF4 then
    match rest with
    | c1 :: rest2 =>
      if cont4Lo b ≤ c1 && c1 ≤ cont4Hi b then
        match rest2 with
        | c2 :: rest3 =>
          if isCont c2 then
            match rest3 with
            | c3 :: _ =>
              if isCont c3 then
                (Char.ofNat ((b - 0xF0) * 262144 + (c1 - 0x80) * 4096 +
                    (c2 - 0x80) * 64 + (c3 - 0x80)), 3)
              else (replChar, 2)
            | [] => (replChar, 2)
          else (replChar, 1)
        | [] => (replChar, 1)
      else (replChar, 0)
    | [] => (replChar, 0)
  else (replChar, 0)

/-- Decoder loop; every step consumes at least the lead byte, so the
input length is enough fuel and the recursion is structural. -/
def utf8DecodeGo : Nat → List Nat → List Char
  | 0, _ => []
  | _, [] => []
  | fuel + 1, b :: rest =>
    (utf8Step b rest).1 :: utf8DecodeGo fuel (rest.drop (utf8Step b rest).2)

/-- WHATWG UTF-8 decode with replacement, over byte values. -/
def utf8DecodeList (bytes : List Nat) : List Char :=
  utf8DecodeGo bytes.length bytes

/-- Decode as `new TextDecoder().decode(bytes)` does. -/
def utf8Decode (bytes : List Nat) : String :=
  ⟨utf8DecodeList bytes⟩

/-! ## Content accessors -/

/-- Accessor `listNewsletters()`: the bundle's metadata sequence verbatim. -/
def listNewsletters (c : RepositoryContents) : List NewsletterMetadata :=
  c.newsletters

/-- Accessor `fetchNewsletter(number)`: find the record with the matching
number, then its byte content; either miss raises
`NewsletterNotFoundError{number}`; otherwise UTF-8-decode the bytes. -/
def fetchNewsletter (c : RepositoryContents) (number : Nat) :
    Except NewsletterNotFoundError String :=
  match c.newsletters.find? (fun n => n.number == number) with
  | none => .error ⟨number⟩
  | some newsletter =>
    match c.getFileContent newsletter.path with
    | none => .error ⟨number⟩
    | some fileContent => .ok (utf8Decode fileContent)

/-- Modelled from the spec: the extension-to-media-type table of the
external `@remix-run/mime` package (`detectMimeType`), which is not
part of this repository; the spec describes a static table keyed by
the filename's extension, with `image/png` for `.png` (property P8),
and a miss for unknown extensions. -/
def detectMimeType (filename : String) : Option String :=
  match String.mk ((splitChars '.' filename.data).getLastD []) with
  | "md" => some "text/markdown"
  | "png" => some "image/png"
  | "jpg" => some "image/jpeg"
  | "jpeg" => some "image/jpeg"
  | "gif" => some "image/gif"
  | "svg" => some "image/svg+xml"
  | "webp" => some "image/webp"
  | _ => none

/-- Accessor `fetchNewsletterImage(number, filename)`: look up the key
`newsletter-{number}/{filename}` directly in the contents map; a miss
raises `ImageNotFoundError{number, filename}`; otherwise return the
bytes together with the detected media type, falling back to
`application/octet-stream`.  The wrapping `File` object's name and
modification time are not modelled. -/
def fetchNewsletterImage (c : RepositoryContents) (number : Nat)
    (filename : String) : Except ImageNotFoundError (List Nat × String) :=
  let imagePath := "newsletter-" ++ natToString number ++ "/" ++ filename
  match c.getFileContent imagePath with
  | none => .error ⟨number, filename⟩
  | some fileContent =>
    .ok (fileContent, (detectMimeType filename).getD "application/octet-stream")

/-! ## The module-level cache (`fetchRepositoryContents`)

The source keeps one module variable `repositoryContentsCache` and
returns it whenever it is non-null; it records no timestamp, has no
expiry and spawns no background work.  The embedding passes the
variable explicitly and adds a ghost `fetchedAt` instant, recorded when
a payload is stored, so that statements about the age of the cached
bundle can be made; the source itself never reads any clock.  A call
supplies the current instant, whether `GITHUB_TOKEN` is present, and
the outcome the synchronous `buildRepositoryContents` pipeline (fetch,
gunzip, tar parse, derivation) would produce.  The returned counter is
the number of upstream tarball fetches the call performs. -/

/-- Cache TTL from `app/utils/cache.ts` (one hour in milliseconds);
in the source it is referenced only by HTTP `Cache-Control` headers. -/
def TTL_MS : Nat := 60 * 60 * 1000

/-- Pipeline failure on the build path (HTTP error, gunzip failure or
tar-structure failure), or the missing-token configuration error. -/
structure DataError where
  message : String
deriving DecidableEq

/-- State of the module variable, with the ghost store instant. -/
structure CacheState where
  payload : Option RepositoryContents
  fetchedAt : Option Int
deriving DecidableEq

/-- One call to `fetchRepositoryContents`: return the cached bundle
when present (no fetch); otherwise require the token and run the
synchronous build, storing the bundle only when the build succeeds. -/
def fetchRepositoryContents (st : CacheState) (now : Int)
    (tokenPresent : Bool) (build : Except DataError RepositoryContents) :
    CacheState × Except DataError RepositoryContents × Nat :=
  match st.payload with
  | some cached => (st, .ok cached, 0)
  | none =>
    if !tokenPresent then
      (st, .error ⟨"GITHUB_TOKEN environment variable is required"⟩, 0)
    else
      match build with
      | .error e => (st, .error e, 1)
      | .ok built => (⟨some built, some now⟩, .ok built, 1)

/-- A run of `n` reads of the cache at one instant.  On the warm path
the source suspends nowhere between reading the module variable and
returning, so concurrent reads are equivalent to this sequential run;
the result counts the total upstream fetches started. -/
def runReads : Nat → CacheState → Int → Bool →
    Except DataError RepositoryContents → CacheState × Nat
  | 0, st, _, _, _ => (st, 0)
  | n + 1, st, now, tok, build =>
    let r := fetchRepositoryContents st now tok build
    let rest := runReads n r.1 now tok build
    (rest.1, r.2.2 + rest.2)

/-! ## Concrete fixtures shared by witnesses and counterexamples -/

/-- Empty bundle. -/
def bundleA : RepositoryContents := ⟨[], [], []⟩

/-- A bundle distinct from `bundleA`. -/
def bundleB : RepositoryContents := ⟨[], [], [("x", [0])]⟩

/-- Archive entry of property P7: one markdown file with bytes
`"hello"`. -/
def exEntry : TarEntry :=
  ⟨"repo-sha/newsletters/newsletter-1/2024-01-01-remix-newsletter-1.md",
   "file", 5, [104, 101, 108, 108, 111]⟩

/-- Auxiliary image entry of property P8. -/
def exImageEntry : TarEntry :=
  ⟨"repo-sha/newsletters/newsletter-1/pic.png", "file", 3, [1, 2, 3]⟩

/-- Bundle assembled from the two fixture entries. -/
def exBundle : RepositoryContents :=
  buildRepositoryContents [exEntry, exImageEntry]

/-! ## C1 — the listing cache has no TTL and no background refresh -/

/-- Claim C1 (counterexample): a first call at instant 0 stores the
bundle; a second call one full TTL later (age = TTL, i.e. at the TTL
boundary) returns the previous payload but performs zero upstream
fetches and leaves the payload in place, not the exactly-one
background fetch with replacement the claim demands. -/
theorem c1_ttl_refresh_counterexample :
    (fetchRepositoryContents ⟨none, none⟩ 0 true (.ok bundleA)).1 =
      ⟨some bundleA, some 0⟩ ∧
    (TTL_MS : Int) - 0 ≥ (TTL_MS : Int) ∧
    fetchRepositoryContents ⟨some bundleA, some 0⟩ (TTL_MS : Int) true
        (.ok bundleB) =
      (⟨some bundleA, some 0⟩, .ok bundleA, 0) ∧
    bundleA ≠ bundleB := by
  refine ⟨by decide, by decide, by decide, by decide⟩

/-- Claim C1 (amended): a call made while any payload is cached — at
any age, below, at or beyond the one-hour TTL — returns the cached
payload immediately with zero additional upstream fetches; no
background fetch is ever started and the payload and its store instant
are never replaced after the first successful build. -/
theorem c1_cache_never_expires (st : CacheState) (c : RepositoryContents)
    (now : Int) (tok : Bool) (build : Except DataError RepositoryContents)
    (h : st.payload = some c) :
    fetchRepositoryContents st now tok build = (st, .ok c, 0) := by
  unfold fetchRepositoryContents
  rw [h]

/-- Witness for `c1_cache_never_expires` at a populated state and an
instant one hour past the store instant. -/
theorem c1_cache_never_expires_witness :
    (⟨some bundleA, some 0⟩ : CacheState).payload = some bundleA ∧
    fetchRepositoryContents ⟨some bundleA, some 0⟩ (TTL_MS : Int) true
        (.ok bundleB) =
      (⟨some bundleA, some 0⟩, .ok bundleA, 0) :=
  ⟨rfl, c1_cache_never_expires ⟨some bundleA, some 0⟩ bundleA (TTL_MS : Int)
    true (.ok bundleB) rfl⟩

/-! ## C2 — no at-most-one in-flight refresh exists: stale reads start
zero refreshes -/

/-- Claim C2 (counterexample): three concurrent reads of a populated
cache whose age equals the TTL start zero background refreshes, not
exactly one as the claim states. -/
theorem c2_single_refresh_counterexample :
    (TTL_MS : Int) - 0 ≥ (TTL_MS : Int) ∧
    runReads 3 ⟨some bundleA, some 0⟩ (TTL_MS : Int) true (.ok bundleB) =
      (⟨some bundleA, some 0⟩, 0) ∧
    (0 : Nat) ≠ 1 := by
  refine ⟨by decide, by decide, by decide⟩

/-- Claim C2 (amended): for every key state holding a payload and every
number N of concurrent stale reads, zero background refreshes are
started — the code has no refresh mechanism at all, so no in-flight
bookkeeping is needed or present; the state is left unchanged. -/
theorem c2_stale_reads_start_no_refresh (n : Nat) (st : CacheState)
    (c : RepositoryContents) (now : Int) (tok : Bool)
    (build : Except DataError RepositoryContents) (h : st.payload = some c) :
    runReads n st now tok build = (st, 0) := by
  induction n with
  | zero => rfl
  | succ k ih =>
    simp only [runReads, c1_cache_never_expires st c now tok build h, ih]

/-- Witness for `c2_stale_reads_start_no_refresh` with two stale
reads. -/
theorem c2_stale_reads_start_no_refresh_witness :
    (⟨some bundleA, some 0⟩ : CacheState).payload = some bundleA ∧
    runReads 2 ⟨some bundleA, some 0⟩ (TTL_MS : Int) true (.ok bundleB) =
      (⟨some bundleA, some 0⟩, 0) :=
  ⟨rfl, c2_stale_reads_start_no_refresh 2 ⟨some bundleA, some 0⟩ bundleA
    (TTL_MS : Int) true (.ok bundleB) rfl⟩

/-! ## C10 — a failed first build leaves the cache empty -/

/-- Claim C10: when the cache is empty and the synchronous build fails
at any stage, the call performs its one upstream fetch, propagates the
error and leaves the state unchanged (still empty); a subsequent call
performs the full build again and stores the bundle only on success;
and in general the state ever changes only to hold a fully successful
build. -/
theorem c10_error_leaves_cache_empty (st : CacheState) (now now2 : Int)
    (e : DataError) (b : RepositoryContents) (h : st.payload = none) :
    fetchRepositoryContents st now true (.error e) = (st, .error e, 1) ∧
    fetchRepositoryContents st now2 true (.ok b) =
      (⟨some b, some now2⟩, .ok b, 1) ∧
    ∀ (st' : CacheState) (now3 : Int) (tok : Bool)
      (build : Except DataError RepositoryContents),
      (fetchRepositoryContents st' now3 tok build).1 ≠ st' →
      ∃ built, build = .ok built ∧
        (fetchRepositoryContents st' now3 tok build).1.payload = some built := by
  refine ⟨?_, ?_, ?_⟩
  · unfold fetchRepositoryContents; rw [h]; rfl
  · unfold fetchRepositoryContents; rw [h]; rfl
  · intro st' now3 tok build hchange
    unfold fetchRepositoryContents at hchange ⊢
    match hp : st'.payload with
    | some cached => rw [hp] at hchange; exact absurd rfl hchange
    | none =>
      rw [hp] at hchange
      cases tok with
      | false => exact absurd rfl hchange
      | true =>
        cases build with
        | error e2 => exact absurd rfl hchange
        | ok built => exact ⟨built, rfl, rfl⟩

/-- Witness for `c10_error_leaves_cache_empty` from the empty initial
state. -/
theorem c10_error_leaves_cache_empty_witness :
    (⟨none, none⟩ : CacheState).payload = none ∧
    fetchRepositoryContents ⟨none, none⟩ 0 true (.error ⟨"boom"⟩) =
      (⟨none, none⟩, .error ⟨"boom"⟩, 1) ∧
    fetchRepositoryContents ⟨none, none⟩ 1 true (.ok bundleA) =
      (⟨some bundleA, some 1⟩, .ok bundleA, 1) :=
  ⟨rfl, (c10_error_leaves_cache_empty ⟨none, none⟩ 0 1 ⟨"boom"⟩ bundleA rfl).1,
    (c10_error_leaves_cache_empty ⟨none, none⟩ 0 1 ⟨"boom"⟩ bundleA rfl).2.1⟩

/-! ## C7 — `fetchNewsletter` error condition -/

/-- Claim C7: fetching the primary content fails with
`NewsletterNotFoundError{number}` exactly when no metadata record
carries that number, or the record located for that number has no byte
content in the map; otherwise it returns the UTF-8 decoding of the
stored bytes. -/
theorem c7_fetchNewsletter_spec (c : RepositoryContents) (n : Nat) :
    (fetchNewsletter c n = .error ⟨n⟩ ↔
      (∀ r ∈ c.newsletters, r.number ≠ n) ∨
      ∃ r, c.newsletters.find? (fun x => x.number == n) = some r ∧
        c.getFileContent r.path = none) ∧
    ∀ r bytes, c.newsletters.find? (fun x => x.number == n) = some r →
      c.getFileContent r.path = some bytes →
      fetchNewsletter c n = .ok (utf8Decode bytes) := by
  constructor
  · cases hfind : c.newsletters.find? (fun x => x.number == n) with
    | none =>
      simp only [fetchNewsletter, hfind, true_iff]
      left
      intro r hr hn
      rw [List.find?_eq_none] at hfind
      exact hfind r hr (by simp [hn])
    | some r =>
      cases hc : c.getFileContent r.path with
      | none =>
        simp only [fetchNewsletter, hfind, hc, true_iff]
        exact Or.inr ⟨r, rfl, hc⟩
      | some bytes =>
        simp only [fetchNewsletter, hfind, hc, reduceCtorEq, false_iff]
        intro hbad
        rcases hbad with habs | ⟨r', hr', hc'⟩
        · have hmem := List.mem_of_find?_eq_some hfind
          have hp := List.find?_some hfind
          exact habs r hmem (by simpa using hp)
        · cases hr'
          rw [hc] at hc'
          cases hc'
  · intro r bytes hfind hc
    simp only [fetchNewsletter, hfind, hc]

/-- Witness for `c7_fetchNewsletter_spec`: the P7 fixture bundle
returns `"hello"` for number 1, and the error condition is observed at
number 999. -/
theorem c7_fetchNewsletter_spec_witness :
    fetchNewsletter exBundle 1 = .ok (utf8Decode [104, 101, 108, 108, 111]) ∧
    fetchNewsletter exBundle 999 = .error ⟨999⟩ ∧
    utf8Decode [104, 101, 108, 108, 111] = "hello" :=
  ⟨(c7_fetchNewsletter_spec exBundle 1).2
      ⟨1, ⟨2024, 1, 1⟩,
        "newsletter-1/2024-01-01-remix-newsletter-1.md",
        "2024-01-01-remix-newsletter-1.md"⟩
      [104, 101, 108, 108, 111] (by decide) (by decide),
   (c7_fetchNewsletter_spec exBundle 999).1.mpr (Or.inl (by decide)),
   by decide⟩

/-! ## C8 — `fetchNewsletterImage` path construction and error -/

/-- Claim C8: the auxiliary-file accessor looks up exactly the key
`newsletter-{number}/{filename}` in the content map, ignoring the
metadata list entirely; a miss fails with
`ImageNotFoundError{number, filename}`, and a hit returns the stored
bytes with the media type detected from the filename's extension,
falling back to `application/octet-stream`. -/
theorem c8_fetchNewsletterImage_spec (c : RepositoryContents) (n : Nat)
    (filename : String) :
    (fetchNewsletterImage c n filename = .error ⟨n, filename⟩ ↔
      c.getFileContent ("newsletter-" ++ natToString n ++ "/" ++ filename) =
        none) ∧
    (∀ bytes,
      c.getFileContent ("newsletter-" ++ natToString n ++ "/" ++ filename) =
        some bytes →
      fetchNewsletterImage c n filename =
        .ok (bytes, (detectMimeType filename).getD "application/octet-stream")) ∧
    ∀ l, fetchNewsletterImage ⟨c.files, l, c.contents⟩ n filename =
      fetchNewsletterImage c n filename := by
  refine ⟨?_, ?_, ?_⟩
  · cases hc : c.getFileContent
        ("newsletter-" ++ natToString n ++ "/" ++ filename) with
    | none => simp only [fetchNewsletterImage, hc]
    | some bytes => simp only [fetchNewsletterImage, hc, reduceCtorEq]
  · intro bytes hc
    simp only [fetchNewsletterImage, hc]
  · intro l
    rfl

/-- Witness for `c8_fetchNewsletterImage_spec`: the P8 fixture returns
the image bytes with media type `image/png`, and a missing filename
yields the error. -/
theorem c8_fetchNewsletterImage_spec_witness :
    fetchNewsletterImage exBundle 1 "pic.png" =
      .ok ([1, 2, 3], "image/png") ∧
    fetchNewsletterImage exBundle 1 "missing.png" =
      .error ⟨1, "missing.png"⟩ := by
  have h := (c8_fetchNewsletterImage_spec exBundle 1 "pic.png").2.1
    [1, 2, 3] (by decide)
  have h2 := (c8_fetchNewsletterImage_spec exBundle 1 "missing.png").1.mpr
    (by decide)
  exact ⟨by rw [h]; decide, h2⟩

/-! ## C9 — digit-wise date acceptance with rollover -/

/-- Reading exactly the length of an all-digit prefix consumes it. -/
theorem takeDigits_append (ds rest : List Char)
    (h : ∀ c ∈ ds, c.isDigit) :
    takeDigits ds.length (ds ++ rest) = some (ds, rest) := by
  induction ds with
  | nil => rfl
  | cons c cs ih =>
    have hc : c.isDigit = true := h c (List.mem_cons_self c cs)
    have hrec := ih fun x hx => h x (List.mem_cons_of_mem c hx)
    simp [takeDigits, hc, hrec]

/-- Dropping a literal from itself followed by anything succeeds. -/
theorem dropLit_append (lit rest : List Char) :
    dropLit lit (lit ++ rest) = some rest := by
  induction lit with
  | nil => rfl
  | cons c cs ih => simp [dropLit, ih]

/-- Digit characters are taken greedily up to a dot, which stops the
scan. -/
theorem takeWhile_digits_dot (nn l : List Char)
    (h : ∀ c ∈ nn, c.isDigit) :
    (nn ++ '.' :: l).takeWhile Char.isDigit = nn ∧
    (nn ++ '.' :: l).dropWhile Char.isDigit = '.' :: l := by
  induction nn with
  | nil =>
    constructor <;>
      simp [List.takeWhile, List.dropWhile, (by decide : Char.isDigit '.' = false)]
  | cons c cs ih =>
    have hc : c.isDigit = true := h c (List.mem_cons_self c cs)
    have hrec := ih fun x hx => h x (List.mem_cons_of_mem c hx)
    constructor <;>
      simp [List.takeWhile, List.dropWhile, hc, hrec.1, hrec.2]

/-- Greedy digit reading stops exactly at a dot. -/
theorem takeDigits1_append (nn l : List Char) (hne : nn ≠ [])
    (h : ∀ c ∈ nn, c.isDigit) :
    takeDigits1 (nn ++ '.' :: l) = some (nn, '.' :: l) := by
  have htw := takeWhile_digits_dot nn l h
  have hnn : nn.isEmpty = false := by
    cases nn with
    | nil => exact absurd rfl hne
    | cons a as => rfl
  simp only [takeDigits1, htw.1, htw.2, hnn, Bool.false_eq_true,
    if_false]

/-- Fixture of an impossible calendar date: February 30. -/
def feb30Files : List (String × NewsletterFile) :=
  [("newsletter-8/2024-02-30-remix-newsletter-8.md",
    ⟨"2024-02-30-remix-newsletter-8.md",
     "newsletter-8/2024-02-30-remix-newsletter-8.md", 4⟩)]

/-- Claim C9: the filename pattern is checked digit-wise only — any
four-digit year, two-digit month and two-digit day are accepted with
no calendar validation — and the stored date is the rolled-over
normalized day: the February-30 fixture derives one record dated
2024-03-01, and month 13 rolls into the next year. -/
theorem c9_no_calendar_validation :
    (∀ y m d nn : List Char, y.length = 4 → m.length = 2 → d.length = 2 →
      (∀ c ∈ y, c.isDigit) → (∀ c ∈ m, c.isDigit) → (∀ c ∈ d, c.isDigit) →
      nn ≠ [] → (∀ c ∈ nn, c.isDigit) →
      parseNewsletterFilename
        ⟨y ++ '-' :: (m ++ '-' ::
          (d ++ ("-remix-newsletter-".data ++ (nn ++ ".md".data))))⟩ =
      some (digitsToNat y, digitsToNat m, digitsToNat d)) ∧
    extractNewsletterMetadata feb30Files =
      [⟨8, ⟨2024, 3, 1⟩, "newsletter-8/2024-02-30-remix-newsletter-8.md",
        "2024-02-30-remix-newsletter-8.md"⟩] ∧
    jsMakeDate 2024 1 30 = ⟨2024, 3, 1⟩ ∧
    jsMakeDate 2024 12 5 = ⟨2025, 1, 5⟩ := by
  refine ⟨?_, by decide, by decide, by decide⟩
  intro y m d nn hy hm hd hyd hmd hdd hne hnd
  have t1 := takeDigits_append y
    ('-' :: (m ++ '-' ::
      (d ++ ("-remix-newsletter-".data ++ (nn ++ ".md".data))))) hyd
  rw [hy] at t1
  have t3 := takeDigits_append m
    ('-' :: (d ++ ("-remix-newsletter-".data ++ (nn ++ ".md".data)))) hmd
  rw [hm] at t3
  have t5 := takeDigits_append d
    ("-remix-newsletter-".data ++ (nn ++ ".md".data)) hdd
  rw [hd] at t5
  have t6 := dropLit_append "-remix-newsletter-".data (nn ++ ".md".data)
  have t7 : takeDigits1 (nn ++ ['.', 'm', 'd']) = some (nn, ['.', 'm', 'd']) :=
    takeDigits1_append nn ['m', 'd'] hne hnd
  have t8 : dropLit ['.', 'm', 'd'] ['.', 'm', 'd'] = some [] := by decide
  simp only [parseNewsletterFilename, t1, t3, t5, t6, t7, t8,
    Option.bind_eq_bind, Option.some_bind, dropLit, if_pos rfl,
    List.append_eq, List.nil_append, List.append_nil, List.isEmpty_nil,
    if_true]

/-- Witness for `c9_no_calendar_validation`: month 13 and day 40 are
accepted digit-wise. -/
theorem c9_no_calendar_validation_witness :
    parseNewsletterFilename
      ⟨"2024".data ++ '-' :: ("13".data ++ '-' ::
        ("40".data ++ ("-remix-newsletter-".data ++
          ("7".data ++ ".md".data))))⟩ =
      some (digitsToNat "2024".data, digitsToNat "13".data,
        digitsToNat "40".data) :=
  c9_no_calendar_validation.1 "2024".data "13".data "40".data "7".data
    rfl rfl rfl (by decide) (by decide) (by decide) (by decide) (by decide)

/-! ## C3 — the deriver sorts by number descending -/

/-- Membership after a descending insertion. -/
theorem mem_insertDesc (x a : NewsletterMetadata)
    (l : List NewsletterMetadata) :
    a ∈ insertDesc x l ↔ a = x ∨ a ∈ l := by
  induction l with
  | nil => simp [insertDesc]
  | cons y ys ih =>
    by_cases h : y.number < x.number
    · simp only [insertDesc, if_pos h, List.mem_cons]
    · simp only [insertDesc, if_neg h, List.mem_cons, ih]
      tauto

/-- Descending insertion preserves the descending-sorted invariant. -/
theorem pairwise_insertDesc (x : NewsletterMetadata)
    (l : List NewsletterMetadata)
    (hl : List.Pairwise (fun a b => b.number ≤ a.number) l) :
    List.Pairwise (fun a b => b.number ≤ a.number) (insertDesc x l) := by
  induction l with
  | nil => exact List.pairwise_singleton _ x
  | cons y ys ih =>
    rcases List.pairwise_cons.mp hl with ⟨hy, hys⟩
    by_cases h : y.number < x.number
    · rw [insertDesc, if_pos h]
      refine List.pairwise_cons.mpr ⟨?_, hl⟩
      intro b hb
      rcases List.mem_cons.mp hb with rfl | hb2
      · exact Nat.le_of_lt h
      · exact Nat.le_trans (hy b hb2) (Nat.le_of_lt h)
    · rw [insertDesc, if_neg h]
      refine List.pairwise_cons.mpr ⟨?_, ih hys⟩
      intro b hb
      rcases (mem_insertDesc x b ys).mp hb with rfl | hb2
      · exact Nat.le_of_not_lt h
      · exact hy b hb2

/-- A descending insertion is a permutation of consing. -/
theorem insertDesc_perm (x : NewsletterMetadata)
    (l : List NewsletterMetadata) : List.Perm (insertDesc x l) (x :: l) := by
  induction l with
  | nil => exact List.Perm.refl _
  | cons y ys ih =>
    by_cases h : y.number < x.number
    · rw [insertDesc, if_pos h]
    · rw [insertDesc, if_neg h]
      exact (ih.cons y).trans (List.Perm.swap x y ys)

/-- The stable descending sort permutes its input. -/
theorem sortByNumberDesc_perm (l : List NewsletterMetadata) :
    List.Perm (sortByNumberDesc l) l := by
  suffices h : ∀ acc : List NewsletterMetadata,
      List.Perm (l.foldl (fun a x => insertDesc x a) acc) (l ++ acc) by
    simpa using h []
  induction l with
  | nil => intro acc; exact List.Perm.refl _
  | cons y ys ih =>
    intro acc
    have h1 : List.Perm (ys.foldl (fun a x => insertDesc x a)
        (insertDesc y acc)) (ys ++ insertDesc y acc) := ih (insertDesc y acc)
    have h2 : List.Perm (ys ++ insertDesc y acc) (ys ++ y :: acc) :=
      List.Perm.append_left ys (insertDesc_perm y acc)
    have h3 : List.Perm (ys ++ y :: acc) (y :: (ys ++ acc)) :=
      List.perm_middle
    exact ((h1.trans h2).trans h3)

/-- The stable descending sort produces a descending-sorted list. -/
theorem pairwise_sortByNumberDesc (l : List NewsletterMetadata) :
    List.Pairwise (fun a b => b.number ≤ a.number) (sortByNumberDesc l) := by
  suffices h : ∀ acc : List NewsletterMetadata,
      List.Pairwise (fun a b => b.number ≤ a.number) acc →
      List.Pairwise (fun a b => b.number ≤ a.number)
        (l.foldl (fun a x => insertDesc x a) acc) by
    exact h [] List.Pairwise.nil
  induction l with
  | nil => intro acc hacc; exact hacc
  | cons y ys ih =>
    intro acc hacc
    exact ih (insertDesc y acc) (pairwise_insertDesc y acc hacc)

/-- Fixture in which numeric order and date order disagree: number 3
carries the older date. -/
def divergeFiles : List (String × NewsletterFile) :=
  [("newsletter-2/2024-01-01-remix-newsletter-2.md",
    ⟨"2024-01-01-remix-newsletter-2.md",
     "newsletter-2/2024-01-01-remix-newsletter-2.md", 1⟩),
   ("newsletter-3/2023-01-01-remix-newsletter-3.md",
    ⟨"2023-01-01-remix-newsletter-3.md",
     "newsletter-3/2023-01-01-remix-newsletter-3.md", 1⟩)]

/-- Claim C3: for every file index, in every iteration order, the
derived metadata sequence is sorted by `number` descending; on a
fixture whose date order disagrees with its numeric order the output
follows the numbers (3 before 2 although 3 carries the older date), so
the rule is numeric-descending, not date-descending. -/
theorem c3_sorted_by_number_desc :
    (∀ files : List (String × NewsletterFile),
      List.Pairwise (fun a b => b.number ≤ a.number)
        (extractNewsletterMetadata files)) ∧
    (extractNewsletterMetadata divergeFiles).map (fun r => r.number) =
      [3, 2] ∧
    (extractNewsletterMetadata divergeFiles).map (fun r => r.date) =
      [⟨2023, 1, 1⟩, ⟨2024, 1, 1⟩] :=
  ⟨fun files => pairwise_sortByNumberDesc _, by decide, by decide⟩

/-! ## C4 — per-directory filtering of the deriver -/

/-- Qualification of a directory group stated as the claim states it:
some file's name ends in the markdown extension, the directory name
matches the fixed prefix-digits pattern, and the chosen (first)
markdown file's name matches the dated-filename pattern. -/
def qualifies (g : String × List NewsletterFile) : Bool :=
  g.2.any (fun f => strEndsWith f.name ".md") &&
  (parseNewsletterDirName g.1).isSome &&
  (match g.2.find? (fun f => strEndsWith f.name ".md") with
   | some f => (parseNewsletterFilename f.name).isSome
   | none => false)

/-- The deriver keeps a group exactly when it qualifies. -/
theorem processDir_isSome_eq_qualifies (g : String × List NewsletterFile) :
    (processDir g).isSome = qualifies g := by
  unfold processDir qualifies
  cases hf : g.2.find? (fun f => strEndsWith f.name ".md") with
  | none =>
    have hany : g.2.any (fun f => strEndsWith f.name ".md") = false := by
      rw [← Bool.not_eq_true, List.any_eq_true]
      rw [List.find?_eq_none] at hf
      rintro ⟨x, hx, hpx⟩
      exact hf x hx hpx
    simp [hany]
  | some f =>
    have hany : g.2.any (fun f => strEndsWith f.name ".md") = true := by
      rw [List.any_eq_true]
      have hp := List.find?_some hf
      exact ⟨f, List.mem_of_find?_eq_some hf, hp⟩
    cases hdir : parseNewsletterDirName g.1 with
    | none => simp [hany, hdir]
    | some number =>
      cases hname : parseNewsletterFilename f.name with
      | none => simp [hany, hdir, hname]
      | some ymd => simp [hany, hdir, hname]

/-- Length of a `filterMap` as a count of kept elements. -/
theorem length_filterMap_eq_countP {α β : Type} (f : α → Option β)
    (l : List α) :
    (l.filterMap f).length = l.countP (fun a => (f a).isSome) := by
  induction l with
  | nil => rfl
  | cons a as ih =>
    cases hf : f a with
    | none => simp [List.filterMap_cons, hf, List.countP_cons, ih]
    | some b => simp [List.filterMap_cons, hf, List.countP_cons, ih]

/-- Claim C4: a group contributes no record when it lacks a markdown
file, when its directory name fails the prefix-digits pattern, or when
its chosen markdown file fails the dated-filename pattern; a group
passing all three checks contributes exactly one record — the total is
the number of qualifying groups — and the deriver is a total function,
so no error is raised for dropped groups. -/
theorem c4_filtering_correctness (files : List (String × NewsletterFile)) :
    (∀ g : String × List NewsletterFile,
      (processDir g).isSome = qualifies g) ∧
    (extractNewsletterMetadata files).length =
      ((groupDirs files).filter qualifies).length := by
  refine ⟨processDir_isSome_eq_qualifies, ?_⟩
  have hperm := sortByNumberDesc_perm ((groupDirs files).filterMap processDir)
  rw [extractNewsletterMetadata, hperm.length_eq,
    length_filterMap_eq_countP, List.countP_eq_length_filter]
  congr 1
  exact List.filter_congr fun g _ => processDir_isSome_eq_qualifies g

/-! ## C5 — uniqueness of numbers needs distinct parsed directory
numbers -/

/-- Fixture whose directory names `newsletter-1` and `newsletter-01`
both parse to the number 1. -/
def dupFiles : List (String × NewsletterFile) :=
  [("newsletter-1/2024-01-05-remix-newsletter-1.md",
    ⟨"2024-01-05-remix-newsletter-1.md",
     "newsletter-1/2024-01-05-remix-newsletter-1.md", 5⟩),
   ("newsletter-01/2024-01-06-remix-newsletter-1.md",
    ⟨"2024-01-06-remix-newsletter-1.md",
     "newsletter-01/2024-01-06-remix-newsletter-1.md", 5⟩)]

/-- Claim C5 (counterexample): the index containing both
`newsletter-1` and `newsletter-01` derives two records with the same
number 1, so numbers are not pairwise distinct for every file
index. -/
theorem c5_unique_numbers_counterexample :
    (extractNewsletterMetadata dupFiles).map (fun r => r.number) = [1, 1] ∧
    ¬ List.Pairwise (fun a b => a.number ≠ b.number)
        (extractNewsletterMetadata dupFiles) := by
  refine ⟨by decide, by decide⟩

/-- A kept record's number is the parse of its group's directory
name. -/
theorem processDir_number (g : String × List NewsletterFile)
    (r : NewsletterMetadata) (h : processDir g = some r) :
    parseNewsletterDirName g.1 = some r.number := by
  cases hf : g.2.find? (fun f => strEndsWith f.name ".md") with
  | none => simp only [processDir, hf, reduceCtorEq] at h
  | some f =>
    cases hdir : parseNewsletterDirName g.1 with
    | none => simp only [processDir, hf, hdir, reduceCtorEq] at h
    | some number =>
      cases hname : parseNewsletterFilename f.name with
      | none => simp only [processDir, hf, hdir, hname, reduceCtorEq] at h
      | some ymd =>
        obtain ⟨y, m, d⟩ := ymd
        simp only [processDir, hf, hdir, hname, Option.some.injEq] at h
        rw [← h]

/-- Claim C5 (amended): the derived numbers are pairwise distinct
provided no two groups' directory names parse to the same number —
equivalently, whenever the parsed directory numbers are distinct
across groups (which fails only for aliases such as `newsletter-1`
versus `newsletter-01`). -/
theorem c5_unique_numbers (files : List (String × NewsletterFile))
    (h : List.Pairwise (fun g1 g2 =>
      parseNewsletterDirName g1.1 = none ∨
      parseNewsletterDirName g1.1 ≠ parseNewsletterDirName g2.1)
      (groupDirs files)) :
    List.Pairwise (fun a b => a.number ≠ b.number)
      (extractNewsletterMetadata files) := by
  rw [extractNewsletterMetadata]
  rw [(sortByNumberDesc_perm _).pairwise_iff fun hxy => hxy.symm]
  rw [List.pairwise_filterMap]
  refine h.imp ?_
  intro g1 g2 hg r1 hr1 r2 hr2
  have h1 := processDir_number g1 r1 hr1
  have h2 := processDir_number g2 r2 hr2
  rcases hg with hnone | hne
  · rw [h1] at hnone; cases hnone
  · rw [h1, h2] at hne
    intro heq
    exact hne (by rw [heq])

/-- Witness for `c5_unique_numbers` on the two-directory fixture with
distinct numbers. -/
theorem c5_unique_numbers_witness :
    List.Pairwise (fun g1 g2 =>
      parseNewsletterDirName g1.1 = none ∨
      parseNewsletterDirName g1.1 ≠ parseNewsletterDirName g2.1)
      (groupDirs divergeFiles) ∧
    List.Pairwise (fun a b => a.number ≠ b.number)
      (extractNewsletterMetadata divergeFiles) :=
  ⟨by decide, c5_unique_numbers divergeFiles (by decide)⟩

/-! ## C6 — tar-entry inclusion and path derivation -/

/-- Last `/`-delimited segment of a path
(`parts[parts.length - 1]`). -/
def lastSeg (s : String) : String :=
  (splitOnSlash s).getLastD ""

/-- Combined inclusion decision of `parseTarball` for one entry: the
entry's derived relative path, or `none` when the entry is skipped.
The `includes` pre-check of the source is subsumed, which
`parseTarball_spec` proves. -/
def entryRelPath (e : TarEntry) : Option String :=
  if e.type == "directory" || strEndsWith e.name "/" then none
  else tarCapture e.name

/-- Claim-level marker test: some occurrence of `/newsletters/`
immediately preceded by a non-slash character (i.e. the content-root
marker segment preceded by at least one path segment). -/
def markerScan : Option Char → List Char → Bool
  | _, [] => false
  | prev, c :: cs =>
    if prevOk prev && markerChars.isPrefixOf (c :: cs) then true
    else markerScan (some c) cs

/-- The claim's inclusion condition on an entry name. -/
def hasContentMarker (s : String) : Bool :=
  markerScan none s.data

/-- Looking a key up after a map write. -/
theorem lookup_mapSet {β : Type} (l : List (String × β)) (k k' : String)
    (v : β) :
    (mapSet l k v).lookup k' = if k' = k then some v else l.lookup k' := by
  induction l with
  | nil =>
    by_cases h : k' = k
    · subst h
      simp [mapSet, List.lookup_cons]
    · simp [mapSet, List.lookup_cons, beq_eq_false_iff_ne.mpr h, if_neg h]
  | cons kv rest ih =>
    obtain ⟨k0, v0⟩ := kv
    by_cases h0 : k0 = k
    · subst h0
      rw [mapSet, if_pos rfl]
      by_cases h : k' = k0
      · subst h
        simp [List.lookup_cons]
      · simp [List.lookup_cons, beq_eq_false_iff_ne.mpr h, if_neg h]
    · rw [mapSet, if_neg h0]
      by_cases h : k' = k0
      · subst h
        simp [List.lookup_cons, if_neg fun hx : k' = k => h0 hx]
      · simp [List.lookup_cons, beq_eq_false_iff_ne.mpr h, ih]

/-- A successful capture implies the `includes` pre-check: the scanner
finds `/newsletters/` only where the name contains `newsletters/`. -/
theorem tarScan_contains (cs : List Char) :
    ∀ (prev : Option Char) (r : List Char), tarScan prev cs = some r →
    containsSub "newsletters/".data cs = true := by
  induction cs with
  | nil => intro prev r h; cases h
  | cons c cs ih =>
    intro prev r h
    simp only [tarScan] at h
    by_cases hc : (prevOk prev && markerChars.isPrefixOf (c :: cs)) = true
    · rw [Bool.and_eq_true] at hc
      have hpre := hc.2
      rw [markerChars, List.isPrefixOf, Bool.and_eq_true] at hpre
      have hsub := hpre.2
      rw [containsSub]
      cases cs with
      | nil => exact absurd hsub (by decide)
      | cons c2 cs2 =>
        rw [containsSub, hsub]
        simp
    · rw [if_neg hc] at h
      rw [containsSub, ih (some c) r h]
      simp

/-- Ending in a slash, stated on the final character. -/
theorem strEndsWith_slash_iff (s : String) :
    strEndsWith s "/" = true ↔ s.data.getLast? = some '/' := by
  rw [strEndsWith, List.isSuffixOf, List.getLast?_eq_head?_reverse]
  cases hrev : s.data.reverse with
  | nil => decide
  | cons b bs =>
    show List.isPrefixOf ['/'] (b :: bs) = true ↔ (b :: bs).head? = some '/'
    rw [List.isPrefixOf, List.isPrefixOf, List.head?]
    rw [Bool.and_eq_true, beq_iff_eq]
    constructor
    · rintro ⟨h1, _⟩
      rw [← h1]
    · intro h
      cases h
      exact ⟨rfl, rfl⟩

/-- On a line-terminator-free name not ending in a slash, the regex
scanner succeeds exactly when the claim's marker condition holds. -/
theorem tarScan_eq_markerScan (cs : List Char) :
    ∀ (prev : Option Char), (∀ c ∈ cs, isLineTerm c = false) →
    cs.getLast? ≠ some '/' →
    (tarScan prev cs).isSome = markerScan prev cs := by
  induction cs with
  | nil => intro prev _ _; rfl
  | cons c cs ih =>
    intro prev hlt hend
    simp only [tarScan, markerScan]
    by_cases hc : (prevOk prev && markerChars.isPrefixOf (c :: cs)) = true
    · rw [if_pos hc, if_pos hc]
      have hpre : markerChars.isPrefixOf (c :: cs) = true := by
        rw [Bool.and_eq_true] at hc
        exact hc.2
      obtain ⟨t, ht⟩ := List.isPrefixOf_iff_prefix.mp hpre
      have hrest : (c :: cs).drop markerChars.length = t := by
        rw [← ht, List.drop_left]
      have htne : t.isEmpty = false := by
        rw [Bool.eq_false_iff]
        intro habs
        rw [List.isEmpty_iff] at habs
        subst habs
        rw [List.append_nil] at ht
        exact hend (by rw [← ht]; decide)
      have hall : t.all (fun ch => !isLineTerm ch) = true := by
        rw [List.all_eq_true]
        intro x hx
        have hmem : x ∈ c :: cs := by
          rw [← ht]; exact List.mem_append_right _ hx
        rw [hlt x hmem]
        rfl
      rw [hrest, htne, hall]
      rfl
    · rw [if_neg hc, if_neg hc]
      have hend2 : cs.getLast? ≠ some '/' := by
        cases cs with
        | nil => simp
        | cons c2 cs2 =>
          intro hx
          exact hend (by rw [List.getLast?_cons_cons]; exact hx)
      exact ih (some c) (fun x hx => hlt x (List.mem_cons_of_mem c hx)) hend2

/-- One `parseTarball` step, characterized through `entryRelPath`: the
`includes` pre-check is redundant because a successful capture implies
it. -/
theorem tarStep_eq
    (acc : List (String × NewsletterFile) × List (String × List Nat))
    (e : TarEntry) :
    tarStep acc e = match entryRelPath e with
      | none => acc
      | some rp =>
        (mapSet acc.1 rp ⟨lastSeg rp, rp, e.size⟩,
         mapSet acc.2 rp e.bytes) := by
  rw [tarStep]
  by_cases hd : (e.type == "directory" || strEndsWith e.name "/") = true
  · have hrel : entryRelPath e = none := by rw [entryRelPath, if_pos hd]
    rw [hrel]
    cases hct : containsSub "newsletters/".data e.name.data with
    | false => rfl
    | true => rw [if_neg (by decide : ¬ (!true) = true), if_pos hd]
  · have hrel : entryRelPath e = tarCapture e.name := by
      rw [entryRelPath, if_neg hd]
    rw [hrel]
    cases hcap : tarCapture e.name with
    | none =>
      cases hct : containsSub "newsletters/".data e.name.data with
      | false => rfl
      | true => rw [if_neg (by decide : ¬ (!true) = true), if_neg hd]
    | some rp =>
      have hscan : ∃ cs, tarScan none e.name.data = some cs := by
        rcases Option.map_eq_some'.mp hcap with ⟨cs, hcs, _⟩
        exact ⟨cs, hcs⟩
      obtain ⟨cs, hcs⟩ := hscan
      have hct : containsSub "newsletters/".data e.name.data = true :=
        tarScan_contains e.name.data none cs hcs
      rw [hct, if_neg (by decide : ¬ (!true) = true), if_neg hd]
      rfl

/-- Keys present after folding the tar step: a key is present exactly
when some processed entry derives it (or it was present already). -/
theorem foldl_tarStep_lookup : ∀ (entries : List TarEntry)
    (acc : List (String × NewsletterFile) × List (String × List Nat))
    (rp : String),
    (((entries.foldl tarStep acc).1.lookup rp).isSome = true ↔
      ((acc.1.lookup rp).isSome = true ∨
        ∃ e ∈ entries, entryRelPath e = some rp)) ∧
    (((entries.foldl tarStep acc).2.lookup rp).isSome = true ↔
      ((acc.2.lookup rp).isSome = true ∨
        ∃ e ∈ entries, entryRelPath e = some rp)) := by
  intro entries
  induction entries with
  | nil => intro acc rp; simp
  | cons e es ih =>
    intro acc rp
    rw [List.foldl_cons]
    have hes : (∃ x ∈ e :: es, entryRelPath x = some rp) ↔
        (entryRelPath e = some rp ∨ ∃ x ∈ es, entryRelPath x = some rp) := by
      constructor
      · rintro ⟨x, hx, hrx⟩
        rcases List.mem_cons.mp hx with rfl | hx2
        · exact Or.inl hrx
        · exact Or.inr ⟨x, hx2, hrx⟩
      · rintro (hx | ⟨x, hx, hrx⟩)
        · exact ⟨e, List.mem_cons_self e es, hx⟩
        · exact ⟨x, List.mem_cons_of_mem e hx, hrx⟩
    cases hrel : entryRelPath e with
    | none =>
      have hstep : tarStep acc e = acc := by rw [tarStep_eq acc e, hrel]
      rw [hstep, hes, hrel]
      have h1 := (ih acc rp).1
      have h2 := (ih acc rp).2
      constructor
      · rw [h1]
        constructor
        · rintro (h | h)
          · exact Or.inl h
          · exact Or.inr (Or.inr h)
        · rintro (h | h | h)
          · exact Or.inl h
          · cases h
          · exact Or.inr h
      · rw [h2]
        constructor
        · rintro (h | h)
          · exact Or.inl h
          · exact Or.inr (Or.inr h)
        · rintro (h | h | h)
          · exact Or.inl h
          · cases h
          · exact Or.inr h
    | some rp' =>
      have hstep : tarStep acc e = (mapSet acc.1 rp' ⟨lastSeg rp', rp', e.size⟩,
          mapSet acc.2 rp' e.bytes) := by
        rw [tarStep_eq acc e, hrel]
      rw [hstep, hes, hrel]
      have h1 := (ih (mapSet acc.1 rp' ⟨lastSeg rp', rp', e.size⟩,
        mapSet acc.2 rp' e.bytes) rp).1
      have h2 := (ih (mapSet acc.1 rp' ⟨lastSeg rp', rp', e.size⟩,
        mapSet acc.2 rp' e.bytes) rp).2
      by_cases hrp : rp = rp'
      · subst hrp
        rw [h1, h2]
        simp [lookup_mapSet]
      · rw [h1, h2]
        simp only [lookup_mapSet, if_neg hrp]
        have hne : ¬ (some rp' = some rp) := fun hx => hrp (by cases hx; rfl)
        constructor <;>
        · constructor
          · rintro (h | h)
            · exact Or.inl h
            · exact Or.inr (Or.inr h)
          · rintro (h | h | h)
            · exact Or.inl h
            · exact absurd h hne
            · exact Or.inr h

/-- Every record in the file index carries its own key as `path` and
the key's last segment as `name`. -/
theorem foldl_tarStep_fields : ∀ (entries : List TarEntry)
    (acc : List (String × NewsletterFile) × List (String × List Nat)),
    (∀ rp f, acc.1.lookup rp = some f → f.path = rp ∧ f.name = lastSeg rp) →
    ∀ rp f, (entries.foldl tarStep acc).1.lookup rp = some f →
      f.path = rp ∧ f.name = lastSeg rp := by
  intro entries
  induction entries with
  | nil => intro acc h; exact h
  | cons e es ih =>
    intro acc h
    rw [List.foldl_cons]
    apply ih
    intro rp f hf
    cases hrel : entryRelPath e with
    | none =>
      have hstep : tarStep acc e = acc := by rw [tarStep_eq acc e, hrel]
      rw [hstep] at hf
      exact h rp f hf
    | some rp' =>
      have hstep : tarStep acc e = (mapSet acc.1 rp' ⟨lastSeg rp', rp', e.size⟩,
          mapSet acc.2 rp' e.bytes) := by
        rw [tarStep_eq acc e, hrel]
      rw [hstep] at hf
      rw [lookup_mapSet] at hf
      by_cases hrp : rp = rp'
      · rw [if_pos hrp] at hf
        cases hf
        subst hrp
        exact ⟨rfl, rfl⟩
      · rw [if_neg hrp] at hf
        exact h rp f hf

/-- Entries that do not derive a key leave that key's bindings
unchanged. -/
theorem foldl_tarStep_untouched : ∀ (es : List TarEntry)
    (acc : List (String × NewsletterFile) × List (String × List Nat))
    (rp : String),
    (∀ e' ∈ es, entryRelPath e' ≠ some rp) →
    (es.foldl tarStep acc).1.lookup rp = acc.1.lookup rp ∧
    (es.foldl tarStep acc).2.lookup rp = acc.2.lookup rp := by
  intro es
  induction es with
  | nil => intro acc rp _; exact ⟨rfl, rfl⟩
  | cons e es ih =>
    intro acc rp hne
    rw [List.foldl_cons]
    have h1 := ih (tarStep acc e) rp
      (fun e' he' => hne e' (List.mem_cons_of_mem e he'))
    cases hrel : entryRelPath e with
    | none =>
      have hstep : tarStep acc e = acc := by rw [tarStep_eq acc e, hrel]
      rw [hstep] at h1 ⊢
      exact h1
    | some rp' =>
      have hner : ¬ rp = rp' := fun hx =>
        hne e (List.mem_cons_self e es) (by rw [hrel, hx])
      have hstep : tarStep acc e = (mapSet acc.1 rp' ⟨lastSeg rp', rp', e.size⟩,
          mapSet acc.2 rp' e.bytes) := by
        rw [tarStep_eq acc e, hrel]
      rw [hstep] at h1 ⊢
      simp only [lookup_mapSet, if_neg hner] at h1
      exact h1

/-- When derived relative paths do not collide, each included entry's
byte payload and file record are found under its relative path. -/
theorem foldl_tarStep_stored : ∀ (entries : List TarEntry)
    (acc : List (String × NewsletterFile) × List (String × List Nat)),
    List.Pairwise (fun e1 e2 => entryRelPath e1 = none ∨
      entryRelPath e1 ≠ entryRelPath e2) entries →
    ∀ e ∈ entries, ∀ rp, entryRelPath e = some rp →
    (entries.foldl tarStep acc).2.lookup rp = some e.bytes ∧
    (entries.foldl tarStep acc).1.lookup rp =
      some ⟨lastSeg rp, rp, e.size⟩ := by
  intro entries
  induction entries with
  | nil => intro acc _ e he; cases he
  | cons e1 es ih =>
    intro acc hp e he rp hrel
    rw [List.foldl_cons]
    rcases List.pairwise_cons.mp hp with ⟨hfirst, hrest⟩
    rcases List.mem_cons.mp he with rfl | hees
    · have hstep : tarStep acc e = (mapSet acc.1 rp ⟨lastSeg rp, rp, e.size⟩,
          mapSet acc.2 rp e.bytes) := by
        rw [tarStep_eq acc e, hrel]
      have hnone : ∀ e' ∈ es, entryRelPath e' ≠ some rp := by
        intro e' he' habs
        rcases hfirst e' he' with hn | hd
        · rw [hrel] at hn; cases hn
        · exact hd (by rw [hrel, habs])
      have hu := foldl_tarStep_untouched es (tarStep acc e) rp hnone
      rw [hstep] at hu
      rw [hstep]
      constructor
      · rw [hu.2]
        simp [lookup_mapSet]
      · rw [hu.1]
        simp [lookup_mapSet]
    · exact ih (tarStep acc e1) hrest e hees rp hrel

/-- Entry whose name carries a newline after the content-root
marker. -/
def newlineEntry : TarEntry :=
  ⟨"x/newsletters/a\nb", "file", 3, [1, 2, 3]⟩

/-- Claim C6 (counterexample): this entry satisfies every inclusion
condition the claim lists — its path contains the `newsletters/`
marker segment preceded by a path segment, it is not typed as a
directory and its name does not end in a separator — yet `parseTarball`
stores nothing for it, because the regex capture `(.+)$` cannot match
the newline in the remainder. -/
theorem c6_newline_counterexample :
    newlineEntry.type ≠ "directory" ∧
    strEndsWith newlineEntry.name "/" = false ∧
    hasContentMarker newlineEntry.name = true ∧
    parseTarball [newlineEntry] = ([], []) := by
  refine ⟨by decide, by decide, by decide, by decide⟩

/-- Claim C6 (amended): for entries whose names are free of line
terminators, the extractor's maps contain a key exactly when some
entry derives it: the entry's path contains the `newsletters/` marker
segment immediately preceded by a non-slash character, the entry is
neither directory-typed nor slash-terminated, and (the amendment) the
remainder after the marker contains no line terminator; `relativePath`
is everything after the marker, `filename` is its last `/`-delimited
segment, and — when derived paths do not collide — the byte payload
and the size-carrying file record are stored under `relativePath`. -/
theorem c6_tarball_extraction :
    (∀ e : TarEntry, (∀ c ∈ e.name.data, isLineTerm c = false) →
      ((entryRelPath e).isSome = true ↔
        (e.type ≠ "directory" ∧ strEndsWith e.name "/" = false ∧
         hasContentMarker e.name = true))) ∧
    (∀ (entries : List TarEntry) (rp : String),
      (((parseTarball entries).2.lookup rp).isSome = true ↔
        ∃ e ∈ entries, entryRelPath e = some rp) ∧
      (((parseTarball entries).1.lookup rp).isSome = true ↔
        ∃ e ∈ entries, entryRelPath e = some rp)) ∧
    (∀ (entries : List TarEntry) (rp : String) (f : NewsletterFile),
      (parseTarball entries).1.lookup rp = some f →
      f.path = rp ∧ f.name = lastSeg rp) ∧
    (∀ entries : List TarEntry,
      List.Pairwise (fun e1 e2 => entryRelPath e1 = none ∨
        entryRelPath e1 ≠ entryRelPath e2) entries →
      ∀ e ∈ entries, ∀ rp, entryRelPath e = some rp →
      (parseTarball entries).2.lookup rp = some e.bytes ∧
      (parseTarball entries).1.lookup rp =
        some ⟨lastSeg rp, rp, e.size⟩) := by
  refine ⟨?_, ?_, ?_, ?_⟩
  · intro e hlt
    rw [entryRelPath]
    by_cases hd : (e.type == "directory" || strEndsWith e.name "/") = true
    · rw [if_pos hd]
      simp only [Option.isSome_none, Bool.false_eq_true, false_iff]
      rintro ⟨hdir, hsl, _⟩
      rcases Bool.or_eq_true _ _ |>.mp hd with h | h
      · exact hdir (by simpa using h)
      · rw [hsl] at h; cases h
    · rw [if_neg hd]
      rw [Bool.or_eq_true] at hd
      push_neg at hd
      have hdir : ¬ e.type = "directory" := by
        intro hx
        exact hd.1 (by rw [hx]; rfl)
      have hsl : strEndsWith e.name "/" = false :=
        Bool.eq_false_iff.mpr hd.2
      have hend : e.name.data.getLast? ≠ some '/' := by
        intro hx
        rw [Bool.eq_false_iff] at hsl
        exact hsl ((strEndsWith_slash_iff e.name).mpr hx)
      have hmain : (tarCapture e.name).isSome = markerScan none e.name.data := by
        rw [tarCapture, Option.isSome_map']
        exact tarScan_eq_markerScan e.name.data none hlt hend
      rw [hmain, hasContentMarker]
      constructor
      · intro hx
        exact ⟨hdir, hsl, hx⟩
      · rintro ⟨_, _, hx⟩
        exact hx
  · intro entries rp
    have h := foldl_tarStep_lookup entries ([], []) rp
    rw [parseTarball]
    constructor
    · rw [h.2]
      simp
    · rw [h.1]
      simp
  · intro entries rp f
    rw [parseTarball]
    exact foldl_tarStep_fields entries ([], [])
      (fun rp' f' hx => by cases hx) rp f
  · intro entries hp e he rp hrel
    rw [parseTarball]
    exact foldl_tarStep_stored entries ([], []) hp e he rp hrel

/-- Witness for `c6_tarball_extraction` on the two-entry fixture
archive: the P7 markdown entry is included, and the P8 image entry's
bytes and record are stored under `newsletter-1/pic.png`. -/
theorem c6_tarball_extraction_witness :
    ((entryRelPath exEntry).isSome = true ↔
      (exEntry.type ≠ "directory" ∧ strEndsWith exEntry.name "/" = false ∧
       hasContentMarker exEntry.name = true)) ∧
    (parseTarball [exEntry, exImageEntry]).2.lookup "newsletter-1/pic.png" =
      some [1, 2, 3] ∧
    (parseTarball [exEntry, exImageEntry]).1.lookup "newsletter-1/pic.png" =
      some ⟨lastSeg "newsletter-1/pic.png", "newsletter-1/pic.png", 3⟩ :=
  ⟨c6_tarball_extraction.1 exEntry (by decide),
   (c6_tarball_extraction.2.2.2 [exEntry, exImageEntry] (by decide)
     exImageEntry (by decide) "newsletter-1/pic.png" (by decide)).1,
   (c6_tarball_extraction.2.2.2 [exEntry, exImageEntry] (by decide)
     exImageEntry (by decide) "newsletter-1/pic.png" (by decide)).2⟩

end NewsletterArchive
